import Mathlib

/-!
Verification of the blackjack basic-strategy trainer core.

The development shallowly embeds the three core components of the
repository: the strategy chart (strategy.cpp), the scenario card
generator (trainer.cpp) and the session statistics accumulator
(stats.cpp).  C++ `int` values are modelled as `Int` in the strategy
chart (where no subtraction occurs) and as `Nat` in the card generator
and statistics (all values there are card values and counters, which
are non-negative in every execution; all subtractions are guarded so
truncated subtraction agrees with integer subtraction on the modelled
domain).  Randomness is modelled by an explicit stream of draws
`rng : Nat -> Nat`; each C++ `uniform_int_distribution(lo, hi)` call
consumes one stream element `r` and yields `lo + r % (hi + 1 - lo)`,
which ranges over exactly [lo, hi] as `r` ranges over `Nat`.
-/

/-- The four canonical player actions of the spec data model. -/
inductive PlayerAction where
  | hit
  | stand
  | double
  | split
deriving DecidableEq

/-- The action characters used by the C++ chart: H, S, D and Y (split),
mapped to the canonical actions; any other character maps to `none`. -/
def charToAction (c : Char) : Option PlayerAction :=
  if c = 'H' then some PlayerAction.hit
  else if c = 'S' then some PlayerAction.stand
  else if c = 'D' then some PlayerAction.double
  else if c = 'Y' then some PlayerAction.split
  else none

/-- Contents of the `hard_totals_` map after
`StrategyChart::build_hard_totals` (strategy.cpp lines 17-78): an entry
exists exactly for totals 5-21 and dealer cards 2-11, with the value
determined by the per-total rules of the build loops. -/
def hard_totals (total dealer : Int) : Option Char :=
  if 2 ≤ dealer ∧ dealer ≤ 11 then
    if 5 ≤ total ∧ total ≤ 8 then some 'H'
    else if total = 9 then some (if 3 ≤ dealer ∧ dealer ≤ 6 then 'D' else 'H')
    else if total = 10 then some (if 2 ≤ dealer ∧ dealer ≤ 9 then 'D' else 'H')
    else if total = 11 then some (if dealer ≤ 10 then 'D' else 'H')
    else if total = 12 then some (if 4 ≤ dealer ∧ dealer ≤ 6 then 'S' else 'H')
    else if 13 ≤ total ∧ total ≤ 16 then
      some (if 2 ≤ dealer ∧ dealer ≤ 6 then 'S' else 'H')
    else if 17 ≤ total ∧ total ≤ 21 then some 'S'
    else none
  else none

/-- Contents of the `soft_totals_` map after
`StrategyChart::build_soft_totals` (strategy.cpp lines 80-129). -/
def soft_totals (total dealer : Int) : Option Char :=
  if 2 ≤ dealer ∧ dealer ≤ 11 then
    if total = 13 ∨ total = 14 then
      some (if 5 ≤ dealer ∧ dealer ≤ 6 then 'D' else 'H')
    else if total = 15 ∨ total = 16 then
      some (if 4 ≤ dealer ∧ dealer ≤ 6 then 'D' else 'H')
    else if total = 17 then some (if 3 ≤ dealer ∧ dealer ≤ 6 then 'D' else 'H')
    else if total = 18 then
      some (if dealer = 2 ∨ dealer = 7 ∨ dealer = 8 then 'S'
            else if 3 ≤ dealer ∧ dealer ≤ 6 then 'D' else 'H')
    else if total = 19 ∨ total = 20 ∨ total = 21 then some 'S'
    else none
  else none

/-- Contents of the `pairs_` map after `StrategyChart::build_pairs`
(strategy.cpp lines 131-202); keys are the pair card value 2-11. -/
def pairs (total dealer : Int) : Option Char :=
  if 2 ≤ dealer ∧ dealer ≤ 11 then
    if total = 11 then some 'Y'
    else if total = 2 ∨ total = 3 then
      some (if 2 ≤ dealer ∧ dealer ≤ 7 then 'Y' else 'H')
    else if total = 4 then some (if 5 ≤ dealer ∧ dealer ≤ 6 then 'Y' else 'H')
    else if total = 5 then some (if 2 ≤ dealer ∧ dealer ≤ 9 then 'D' else 'H')
    else if total = 6 then some (if 2 ≤ dealer ∧ dealer ≤ 6 then 'Y' else 'H')
    else if total = 7 then some (if 2 ≤ dealer ∧ dealer ≤ 7 then 'Y' else 'H')
    else if total = 8 then some 'Y'
    else if total = 9 then
      some (if dealer = 7 ∨ dealer = 10 ∨ dealer = 11 then 'S' else 'Y')
    else if total = 10 then some 'S'
    else none
  else none

/-- `StrategyChart::get_correct_action` (strategy.cpp lines 214-229):
dispatch on the category string ("pair" to the pairs map, "soft" to the
soft map, anything else to the hard map) and default to H on a missing
key. -/
def get_correct_action (hand_type : String) (player_total dealer_card : Int) :
    Char :=
  if hand_type = "pair" then (pairs player_total dealer_card).getD 'H'
  else if hand_type = "soft" then (soft_totals player_total dealer_card).getD 'H'
  else (hard_totals player_total dealer_card).getD 'H'

/-- Modelled from the spec table in section 4.1, Hard rows: the action the
spec prescribes for a hard total against a dealer card (arbitrary outside
the tabulated domain). -/
def specHard (total dealer : Nat) : PlayerAction :=
  if 5 ≤ total ∧ total ≤ 8 then PlayerAction.hit
  else if total = 9 then
    (if 3 ≤ dealer ∧ dealer ≤ 6 then PlayerAction.double else PlayerAction.hit)
  else if total = 10 then
    (if 2 ≤ dealer ∧ dealer ≤ 9 then PlayerAction.double else PlayerAction.hit)
  else if total = 11 then
    (if 2 ≤ dealer ∧ dealer ≤ 10 then PlayerAction.double else PlayerAction.hit)
  else if total = 12 then
    (if 4 ≤ dealer ∧ dealer ≤ 6 then PlayerAction.stand else PlayerAction.hit)
  else if 13 ≤ total ∧ total ≤ 16 then
    (if 2 ≤ dealer ∧ dealer ≤ 6 then PlayerAction.stand else PlayerAction.hit)
  else if 17 ≤ total ∧ total ≤ 21 then PlayerAction.stand
  else PlayerAction.hit

/-- Modelled from the spec table in section 4.1, Soft rows. -/
def specSoft (total dealer : Nat) : PlayerAction :=
  if total = 13 ∨ total = 14 then
    (if 5 ≤ dealer ∧ dealer ≤ 6 then PlayerAction.double else PlayerAction.hit)
  else if total = 15 ∨ total = 16 then
    (if 4 ≤ dealer ∧ dealer ≤ 6 then PlayerAction.double else PlayerAction.hit)
  else if total = 17 then
    (if 3 ≤ dealer ∧ dealer ≤ 6 then PlayerAction.double else PlayerAction.hit)
  else if total = 18 then
    (if dealer = 2 ∨ dealer = 7 ∨ dealer = 8 then PlayerAction.stand
     else if 3 ≤ dealer ∧ dealer ≤ 6 then PlayerAction.double else PlayerAction.hit)
  else if 19 ≤ total ∧ total ≤ 21 then PlayerAction.stand
  else PlayerAction.hit

/-- Modelled from the spec table in section 4.1, Pair rows (keyed by the
pair card value). -/
def specPair (total dealer : Nat) : PlayerAction :=
  if total = 11 then PlayerAction.split
  else if total = 2 ∨ total = 3 then
    (if 2 ≤ dealer ∧ dealer ≤ 7 then PlayerAction.split else PlayerAction.hit)
  else if total = 4 then
    (if 5 ≤ dealer ∧ dealer ≤ 6 then PlayerAction.split else PlayerAction.hit)
  else if total = 5 then
    (if 2 ≤ dealer ∧ dealer ≤ 9 then PlayerAction.double else PlayerAction.hit)
  else if total = 6 then
    (if 2 ≤ dealer ∧ dealer ≤ 6 then PlayerAction.split else PlayerAction.hit)
  else if total = 7 then
    (if 2 ≤ dealer ∧ dealer ≤ 7 then PlayerAction.split else PlayerAction.hit)
  else if total = 8 then PlayerAction.split
  else if total = 9 then
    (if dealer = 7 ∨ dealer = 10 ∨ dealer = 11 then PlayerAction.stand
     else PlayerAction.split)
  else if total = 10 then PlayerAction.stand
  else PlayerAction.hit

example : charToAction (get_correct_action "hard" 16 10) = some PlayerAction.hit := by
  decide

example : charToAction (get_correct_action "pair" 8 2) = some PlayerAction.split := by
  decide

example : charToAction (get_correct_action "soft" 18 9) = some PlayerAction.hit := by
  decide

example : charToAction (get_correct_action "pair" 9 7) = some PlayerAction.stand := by
  decide

set_option synthInstance.maxSize 2000 in
/-- C1: for every category, every player total in the valid range for
that category (Hard 5-21, Soft 13-21, Pair 2-11) and every dealer card
in [2,11], `get_correct_action` returns one of the four canonical
actions (witnessed by `charToAction` returning `some`), and that action
is exactly the one prescribed by the rule table of spec section 4.1. -/
theorem correctAction_matches_spec_table :
    ∀ t : Nat, t ≤ 21 → ∀ d : Nat, d ≤ 11 → 2 ≤ d →
      (5 ≤ t →
        charToAction (get_correct_action "hard" (t : Int) (d : Int)) =
          some (specHard t d)) ∧
      (13 ≤ t →
        charToAction (get_correct_action "soft" (t : Int) (d : Int)) =
          some (specSoft t d)) ∧
      (2 ≤ t → t ≤ 11 →
        charToAction (get_correct_action "pair" (t : Int) (d : Int)) =
          some (specPair t d)) := by
  decide

/-- Witness for C1 at the concrete inputs named by the claim:
Hard 16 vs 10 is Hit per the spec table, and the chart agrees. -/
theorem correctAction_matches_spec_table_witness :
    charToAction (get_correct_action "hard" ((16 : Nat) : Int) ((10 : Nat) : Int)) =
      some (specHard 16 10) :=
  (correctAction_matches_spec_table 16 (by decide) 10 (by decide) (by decide)).1
    (by decide)

/-- C3 counterexample: the category string "banana" matches no populated
sub-table name, yet `get_correct_action` does not return Hit for it: the
final else branch of the dispatch treats every category other than
"pair" and "soft" as hard, so a key inside the hard domain yields the
hard-table action (here Stand), refuting the claim that every
category-mismatched query returns Hit. -/
theorem correctAction_category_mismatch_not_hit :
    get_correct_action "banana" 16 5 = 'S' ∧
      get_correct_action "banana" 16 5 ≠ 'H' := by
  decide

/-- C3 (amended): `get_correct_action` never fails and defaults to Hit
exactly on a missing key of the sub-table selected by the category
dispatch: the pairs table for "pair", the soft table for "soft", and the
hard table for every other category string (unrecognized categories
included). -/
theorem correctAction_default_hit_on_missing_key :
    ∀ (hand_type : String) (t d : Int),
      (hand_type = "pair" → pairs t d = none →
        get_correct_action hand_type t d = 'H') ∧
      (hand_type = "soft" → soft_totals t d = none →
        get_correct_action hand_type t d = 'H') ∧
      (hand_type ≠ "pair" → hand_type ≠ "soft" → hard_totals t d = none →
        get_correct_action hand_type t d = 'H') := by
  intro hand_type t d
  refine ⟨?_, ?_, ?_⟩
  · intro h1 h2
    simp [get_correct_action, h1, h2]
  · intro h1 h2
    simp [get_correct_action, h1, h2]
  · intro h1 h2 h3
    simp [get_correct_action, h1, h2, h3]

/-- Witness for C3 (amended): the key (16, 5) is missing from the pairs
table, and the query defaults to Hit there. -/
theorem correctAction_default_hit_on_missing_key_witness :
    ("pair" : String) = "pair" ∧ pairs 16 5 = none ∧
      get_correct_action "pair" 16 5 = 'H' :=
  ⟨rfl, by decide,
    (correctAction_default_hit_on_missing_key "pair" 16 5).1 rfl (by decide)⟩

/-- Contents of the `mnemonics_` map after
`StrategyChart::build_mnemonics` (strategy.cpp lines 204-212); the map
access `.at` in the source is only ever applied to present keys, so a
total function with a junk default is an exact model of the accesses. -/
def mnemonics (key : String) : String :=
  if key = "dealer_weak" then "Dealer bust cards (4,5,6) = player gets greedy"
  else if key = "always_split" then "Aces and eights, don\x27t hesitate"
  else if key = "never_split" then "Tens and fives, keep them alive"
  else if key = "teens_vs_strong" then "Teens stay vs weak, flee from strong"
  else if key = "soft_17" then "A,7 is the tricky soft hand"
  else if key = "hard_12" then "12 is the exception - only stand vs 4,5,6"
  else if key = "doubles" then "Double when dealer is weak and you can improve"
  else ""

/-- Contents of the `dealer_groups_` map set up in the `StrategyChart`
constructor (strategy.cpp lines 12-14). -/
def dealer_groups (key : String) : List Int :=
  if key = "weak" then [4, 5, 6]
  else if key = "medium" then [2, 3, 7, 8]
  else if key = "strong" then [9, 10, 11]
  else []

/-- `StrategyChart::get_explanation` (strategy.cpp lines 231-270): the
sequence of early returns becomes an if-else chain in source order. -/
def get_explanation (hand_type : String) (player_total dealer_card : Int) :
    String :=
  if hand_type = "pair" ∧ player_total = 11 then mnemonics "always_split"
  else if hand_type = "pair" ∧ player_total = 8 then mnemonics "always_split"
  else if hand_type = "pair" ∧ player_total = 10 then mnemonics "never_split"
  else if hand_type = "pair" ∧ player_total = 5 then mnemonics "never_split"
  else if hand_type = "soft" ∧ player_total = 18 then mnemonics "soft_17"
  else if hand_type = "hard" ∧ player_total = 12 then mnemonics "hard_12"
  else if dealer_card ∈ dealer_groups "weak" then mnemonics "dealer_weak"
  else if 13 ≤ player_total ∧ player_total ≤ 16 ∧
      dealer_card ∈ dealer_groups "strong" then mnemonics "teens_vs_strong"
  else "Follow basic strategy patterns"

/-- Modelled from the spec (section 4.1, `explanation` contract): canned
mnemonic selected by priority, (a) specific scenarios (absolute pairs,
soft 18, hard 12), (b) dealer in the Weak group, (c) total in [13,16]
with dealer Strong, (d) generic fallback. -/
def explanationSpec (hand_type : String) (player_total dealer_card : Int) :
    String :=
  if hand_type = "pair" ∧ (player_total = 11 ∨ player_total = 8) then
    "Aces and eights, don\x27t hesitate"
  else if hand_type = "pair" ∧ (player_total = 10 ∨ player_total = 5) then
    "Tens and fives, keep them alive"
  else if hand_type = "soft" ∧ player_total = 18 then
    "A,7 is the tricky soft hand"
  else if hand_type = "hard" ∧ player_total = 12 then
    "12 is the exception - only stand vs 4,5,6"
  else if dealer_card = 4 ∨ dealer_card = 5 ∨ dealer_card = 6 then
    "Dealer bust cards (4,5,6) = player gets greedy"
  else if 13 ≤ player_total ∧ player_total ≤ 16 ∧
      (dealer_card = 9 ∨ dealer_card = 10 ∨ dealer_card = 11) then
    "Teens stay vs weak, flee from strong"
  else "Follow basic strategy patterns"

set_option maxHeartbeats 2000000 in
/-- C4: `get_explanation` agrees everywhere with the priority selection
described by the spec (specific scenarios first, then dealer-weak, then
teens-vs-strong, then the generic fallback), and at inputs where several
conditions hold at once the earlier rule wins: pair 8 against a weak
dealer gets the always-split text, soft 18 and hard 12 against weak
dealers get their specific texts, and a weak dealer beats the fallback
while a strong dealer with a teen total gets the teens text. -/
theorem explanation_priority_matches_spec :
    (∀ (ht : String) (t d : Int),
      get_explanation ht t d = explanationSpec ht t d) ∧
    get_explanation "pair" 8 5 = mnemonics "always_split" ∧
    get_explanation "soft" 18 4 = mnemonics "soft_17" ∧
    get_explanation "hard" 12 6 = mnemonics "hard_12" ∧
    get_explanation "hard" 14 5 = mnemonics "dealer_weak" ∧
    get_explanation "hard" 14 10 = mnemonics "teens_vs_strong" := by
  have hw : ∀ x : Int, x ∈ dealer_groups "weak" ↔ (x = 4 ∨ x = 5 ∨ x = 6) := by
    intro x
    simp [dealer_groups]
  have hs : ∀ x : Int, x ∈ dealer_groups "strong" ↔
      (x = 9 ∨ x = 10 ∨ x = 11) := by
    intro x
    simp [dealer_groups]
  refine ⟨?_, by rfl, by rfl, by rfl, by rfl, by rfl⟩
  intro ht t d
  simp only [get_explanation, explanationSpec, hw, hs]
  split_ifs <;> first | rfl | tauto

/-- `StrategyChart::is_absolute_rule` (strategy.cpp lines 272-294); the
dealer card parameter is accepted and ignored as in the source. -/
def is_absolute_rule (hand_type : String) (player_total dealer_card : Int) :
    Bool :=
  if hand_type = "pair" ∧
      (player_total = 11 ∨ player_total = 8 ∨ player_total = 10 ∨
        player_total = 5) then true
  else if hand_type = "hard" ∧ 17 ≤ player_total then true
  else if hand_type = "soft" ∧ 19 ≤ player_total then true
  else false

/-- C5: `is_absolute_rule` is true exactly for Pair totals 5, 8, 10, 11,
Hard totals of at least 17, and Soft totals of at least 19, and false
for every other category and total (any dealer card). -/
theorem isAbsoluteRule_iff :
    ∀ (hand_type : String) (t d : Int),
      is_absolute_rule hand_type t d = true ↔
        (hand_type = "pair" ∧ (t = 5 ∨ t = 8 ∨ t = 10 ∨ t = 11)) ∨
        (hand_type = "hard" ∧ 17 ≤ t) ∨
        (hand_type = "soft" ∧ 19 ≤ t) := by
  intro hand_type t d
  simp only [is_absolute_rule]
  split_ifs with h1 h2 h3 <;> simp_all <;> first | tauto | omega

/-- One draw of `uniform_int_distribution(lo, hi)` fed by a raw stream
value `r`: the result `lo + r % (hi + 1 - lo)` ranges over exactly
[lo, hi] as `r` ranges over `Nat` (for `lo ≤ hi`). -/
def clampDraw (r lo hi : Nat) : Nat := lo + r % (hi + 1 - lo)

theorem clampDraw_lo (r lo hi : Nat) : lo ≤ clampDraw r lo hi :=
  Nat.le_add_right lo _

theorem clampDraw_le (r lo hi : Nat) (h : lo ≤ hi) : clampDraw r lo hi ≤ hi := by
  have hm : r % (hi + 1 - lo) < hi + 1 - lo := Nat.mod_lt _ (by omega)
  simp only [clampDraw]
  omega

/-- The `while (remaining > 10)` peel-off loop of
`TrainingSession::generate_hand_cards` (trainer.cpp lines 44-55): take a
card in [2, min(10, remaining - 2)] (stopping early if that upper bound
drops below 2, matching the break statement in the source), subtract it and append it,
until the remaining value is at most 10.  `i` indexes the draw stream;
the result is the accumulated card list and the final remaining value,
which the caller appends when it is at least 2. -/
def peelLoop (rng : Nat → Nat) (i remaining : Nat) (cards : List Nat) :
    List Nat × Nat :=
  if h : 10 < remaining then
    if hm : min 10 (remaining - 2) < 2 then (cards, remaining)
    else
      peelLoop rng (i + 1)
        (remaining - clampDraw (rng i) 2 (min 10 (remaining - 2)))
        (cards ++ [clampDraw (rng i) 2 (min 10 (remaining - 2))])
  else (cards, remaining)
termination_by remaining
decreasing_by
  have h2 : 2 ≤ clampDraw (rng i) 2 (min 10 (remaining - 2)) :=
    clampDraw_lo _ _ _
  omega

/-- The first card drawn for a hard total of at least 12
(trainer.cpp lines 34-35): uniform in [2, min(10, player_total - 2)]. -/
def first_card (rng : Nat → Nat) (player_total : Nat) : Nat :=
  clampDraw (rng 0) 2 (min 10 (player_total - 2))

/-- The tentative second card, `player_total - first_card`
(trainer.cpp line 36). -/
def second_card (rng : Nat → Nat) (player_total : Nat) : Nat :=
  player_total - first_card rng player_total

/-- `TrainingSession::generate_hand_cards` (trainer.cpp lines 18-68).
The C++ locals `first_card` and `second_card` are the helper functions
above; the loop body is `peelLoop` seeded with the first card and
`remaining = player_total - first_card`, and the final remaining value
is appended when it is at least 2, exactly as in the source. -/
def generate_hand_cards (rng : Nat → Nat) (hand_type : String)
    (player_total : Nat) : List Nat :=
  if hand_type = "pair" then [player_total, player_total]
  else if hand_type = "soft" then [11, player_total - 11]
  else if player_total ≤ 11 then [player_total]
  else if 10 < second_card rng player_total then
    (if 2 ≤ (peelLoop rng 1 (player_total - first_card rng player_total)
          [first_card rng player_total]).2 then
      (peelLoop rng 1 (player_total - first_card rng player_total)
          [first_card rng player_total]).1 ++
        [(peelLoop rng 1 (player_total - first_card rng player_total)
          [first_card rng player_total]).2]
    else
      (peelLoop rng 1 (player_total - first_card rng player_total)
          [first_card rng player_total]).1)
  else if second_card rng player_total < 2 then [player_total]
  else [first_card rng player_total, second_card rng player_total]

/-- Invariants of the peel-off loop, by strong induction on the
remaining value: the card sum plus the final remaining value is
conserved, the final remaining value lies in [2,10] whenever the loop
starts at 2 or more, every appended card lies in [2,10], and the card
list never shrinks. -/
theorem peelLoop_spec (rng : Nat → Nat) :
    ∀ remaining i cards, 2 ≤ remaining →
      (peelLoop rng i remaining cards).1.sum +
          (peelLoop rng i remaining cards).2 = cards.sum + remaining ∧
      2 ≤ (peelLoop rng i remaining cards).2 ∧
      (peelLoop rng i remaining cards).2 ≤ 10 ∧
      (∀ c ∈ (peelLoop rng i remaining cards).1,
        c ∈ cards ∨ (2 ≤ c ∧ c ≤ 10)) ∧
      cards.length ≤ (peelLoop rng i remaining cards).1.length := by
  intro remaining
  induction remaining using Nat.strong_induction_on with
  | _ remaining ih =>
    intro i cards h2
    rw [peelLoop]
    by_cases h10 : 10 < remaining
    · rw [dif_pos h10]
      have hmin : ¬ min 10 (remaining - 2) < 2 := by omega
      rw [dif_neg hmin]
      have hlo : 2 ≤ clampDraw (rng i) 2 (min 10 (remaining - 2)) :=
        clampDraw_lo _ _ _
      have hhi : clampDraw (rng i) 2 (min 10 (remaining - 2)) ≤
          min 10 (remaining - 2) := clampDraw_le _ _ _ (by omega)
      obtain ⟨hsum, hrlo, hrhi, hmem, hlen⟩ :=
        ih (remaining - clampDraw (rng i) 2 (min 10 (remaining - 2)))
          (by omega) (i + 1)
          (cards ++ [clampDraw (rng i) 2 (min 10 (remaining - 2))])
          (by omega)
      refine ⟨?_, hrlo, hrhi, ?_, ?_⟩
      · rw [hsum]
        simp only [List.sum_append, List.sum_cons, List.sum_nil]
        omega
      · intro c hc
        rcases hmem c hc with hcc | hcc
        · rcases List.mem_append.mp hcc with hcc2 | hcc2
          · exact Or.inl hcc2
          · have : c = clampDraw (rng i) 2 (min 10 (remaining - 2)) := by
              simpa using hcc2
            subst this
            exact Or.inr ⟨hlo, by omega⟩
        · exact Or.inr hcc
      · calc cards.length ≤
            (cards ++ [clampDraw (rng i) 2 (min 10 (remaining - 2))]).length := by
              simp
          _ ≤ _ := hlen
    · rw [dif_neg h10]
      exact ⟨rfl, h2, by omega, fun c hc => Or.inl hc, Nat.le_refl _⟩

/-- A concrete draw stream: all raw draws zero (every clamped draw takes
its lower bound). -/
def rng0 : Nat → Nat := fun _ => 0

/-- Shared facts about hard-hand generation for totals of at least 12:
the generated cards sum to the total, there are at least two of them,
and every card lies in [2,10]. -/
theorem generate_hard_ge_twelve (rng : Nat → Nat) (n : Nat) (h12 : 12 ≤ n) :
    (generate_hand_cards rng "hard" n).sum = n ∧
    2 ≤ (generate_hand_cards rng "hard" n).length ∧
    ∀ c ∈ generate_hand_cards rng "hard" n, 2 ≤ c ∧ c ≤ 10 := by
  have hfc2 : 2 ≤ first_card rng n := clampDraw_lo _ _ _
  have hfcm : first_card rng n ≤ min 10 (n - 2) := clampDraw_le _ _ _ (by omega)
  have hfc10 : first_card rng n ≤ 10 := le_trans hfcm (Nat.min_le_left _ _)
  have hfcn : first_card rng n ≤ n - 2 := le_trans hfcm (Nat.min_le_right _ _)
  have h11 : ¬ n ≤ 11 := by omega
  have hsc : second_card rng n = n - first_card rng n := rfl
  by_cases hpeel : 10 < second_card rng n
  · obtain ⟨hsum, hrlo, hrhi, hmem, hlen⟩ :=
      peelLoop_spec rng (n - first_card rng n) 1 [first_card rng n] (by omega)
    have hg : generate_hand_cards rng "hard" n =
        (peelLoop rng 1 (n - first_card rng n) [first_card rng n]).1 ++
          [(peelLoop rng 1 (n - first_card rng n) [first_card rng n]).2] := by
      simp [generate_hand_cards, h11, hpeel, hrlo]
    rw [hg]
    refine ⟨?_, ?_, ?_⟩
    · simp only [List.sum_append, List.sum_cons, List.sum_nil]
      simp only [List.sum_cons, List.sum_nil] at hsum
      omega
    · have : 1 ≤ (peelLoop rng 1 (n - first_card rng n)
          [first_card rng n]).1.length := by
        simpa using hlen
      simp only [List.length_append, List.length_cons, List.length_nil]
      omega
    · intro c hc
      rcases List.mem_append.mp hc with hc2 | hc2
      · rcases hmem c hc2 with hc3 | hc3
        · have : c = first_card rng n := by simpa using hc3
          subst this
          exact ⟨hfc2, hfc10⟩
        · exact hc3
      · have : c = (peelLoop rng 1 (n - first_card rng n)
            [first_card rng n]).2 := by simpa using hc2
        subst this
        exact ⟨hrlo, hrhi⟩
  · have hsc2 : ¬ second_card rng n < 2 := by omega
    have hg : generate_hand_cards rng "hard" n =
        [first_card rng n, second_card rng n] := by
      simp [generate_hand_cards, h11, hpeel, hsc2]
    rw [hg]
    refine ⟨?_, by simp, ?_⟩
    · simp only [List.sum_cons, List.sum_nil]
      omega
    · intro c hc
      rcases List.mem_cons.mp hc with hc2 | hc2
      · subst hc2
        exact ⟨hfc2, hfc10⟩
      · have : c = second_card rng n := by simpa using hc2
        subst this
        exact ⟨by omega, by omega⟩

/-- C2 counterexample: 11 lies in the supported hard-total
domain [5,21] of the generator, but `generate_hand_cards` returns the single card 11
there, so the claimed invariant that no generated card equals 11 (and
that every card lies in [2,10]) fails at total 11. -/
theorem hard_hand_total_eleven_breaks_card_range :
    generate_hand_cards rng0 "hard" 11 = [11] ∧
      ¬ (∀ c ∈ generate_hand_cards rng0 "hard" 11, c ≠ 11 ∧ c ≤ 10) := by
  have hg : generate_hand_cards rng0 "hard" 11 = [11] := by rfl
  refine ⟨hg, ?_⟩
  intro h
  have h11 : (11 : Nat) ∈ generate_hand_cards rng0 "hard" 11 := by
    rw [hg]
    simp
  exact (h 11 h11).1 rfl

/-- C2 (amended): for every hard total in [5,21] and every draw stream,
the generated cards sum to the total; for totals in [5,10] the hand is
the single card equal to the total; for totals of at least 12 the hand
has two or more cards, each in [2,10] and none equal to 11.  The single
exception to the claimed card-range invariant is total 11, where the
hand is the single card 11. -/
theorem hard_hand_generation_invariants :
    ∀ (rng : Nat → Nat) (n : Nat), 5 ≤ n → n ≤ 21 →
      (generate_hand_cards rng "hard" n).sum = n ∧
      (n ≤ 10 → generate_hand_cards rng "hard" n = [n]) ∧
      (n = 11 → generate_hand_cards rng "hard" n = [11]) ∧
      (12 ≤ n →
        2 ≤ (generate_hand_cards rng "hard" n).length ∧
        ∀ c ∈ generate_hand_cards rng "hard" n, 2 ≤ c ∧ c ≤ 10 ∧ c ≠ 11) := by
  intro rng n h5 h21
  by_cases h11 : n ≤ 11
  · have hg : generate_hand_cards rng "hard" n = [n] := by
      simp [generate_hand_cards, h11]
    refine ⟨by rw [hg]; simp, fun _ => hg, fun he => by rw [hg, he], ?_⟩
    intro h12
    omega
  · obtain ⟨hsum, hlen, hmem⟩ := generate_hard_ge_twelve rng n (by omega)
    refine ⟨hsum, fun h => by omega, fun h => by omega, ?_⟩
    intro _
    refine ⟨hlen, ?_⟩
    intro c hc
    obtain ⟨hc2, hc10⟩ := hmem c hc
    exact ⟨hc2, hc10, by omega⟩

/-- Witness for C2 (amended) at total 16 with the all-zero draw stream. -/
theorem hard_hand_generation_invariants_witness :
    (5 ≤ 16 ∧ 16 ≤ 21) ∧ (generate_hand_cards rng0 "hard" 16).sum = 16 :=
  ⟨⟨by decide, by decide⟩,
    (hard_hand_generation_invariants rng0 16 (by decide) (by decide)).1⟩

/-- C10: for hard totals in [12,21] the first card is drawn from
[2, min(10, total - 2)], so the tentative second card is at least 2,
the single-card fallback branch (`second_card < 2`) is unreachable, and
the generator never returns a one-card hand there, in particular never
a single card above 10. -/
theorem hard_hand_no_single_card_fallback :
    ∀ (rng : Nat → Nat) (n : Nat), 12 ≤ n → n ≤ 21 →
      2 ≤ second_card rng n ∧
      2 ≤ (generate_hand_cards rng "hard" n).length ∧
      ∀ c, 10 < c → generate_hand_cards rng "hard" n ≠ [c] := by
  intro rng n h12 h21
  have hfcm : first_card rng n ≤ min 10 (n - 2) := clampDraw_le _ _ _ (by omega)
  have hfcn : first_card rng n ≤ n - 2 := le_trans hfcm (Nat.min_le_right _ _)
  obtain ⟨hsum, hlen, hmem⟩ := generate_hard_ge_twelve rng n h12
  refine ⟨?_, hlen, ?_⟩
  · show 2 ≤ n - first_card rng n
    omega
  · intro c hc heq
    have := congrArg List.length heq
    simp only [List.length_cons, List.length_nil] at this
    omega

/-- Witness for C10 at total 12 with the all-zero draw stream. -/
theorem hard_hand_no_single_card_fallback_witness :
    (12 ≤ 12 ∧ 12 ≤ 21) ∧ 2 ≤ second_card rng0 12 :=
  ⟨⟨by decide, by decide⟩,
    (hard_hand_no_single_card_fallback rng0 12 (by decide) (by decide)).1⟩

/-- Fuel-bounded variant of the peel-off loop, structurally recursive on
the fuel: `none` means the fuel ran out before the loop exited.  Used to
state termination of the unbounded while loop of the source as a theorem. -/
def peelLoopFuel (rng : Nat → Nat) :
    Nat → Nat → Nat → List Nat → Option (List Nat × Nat)
  | 0, _, _, _ => none
  | fuel + 1, i, remaining, cards =>
    if 10 < remaining then
      if min 10 (remaining - 2) < 2 then some (cards, remaining)
      else
        peelLoopFuel rng fuel (i + 1)
          (remaining - clampDraw (rng i) 2 (min 10 (remaining - 2)))
          (cards ++ [clampDraw (rng i) 2 (min 10 (remaining - 2))])
    else some (cards, remaining)

/-- Fuel-bounded variant of `generate_hand_cards`, identical except that
the peel-off loop runs on the given fuel. -/
def generate_hand_cards_fuel (rng : Nat → Nat) (hand_type : String)
    (player_total fuel : Nat) : Option (List Nat) :=
  if hand_type = "pair" then some [player_total, player_total]
  else if hand_type = "soft" then some [11, player_total - 11]
  else if player_total ≤ 11 then some [player_total]
  else if 10 < second_card rng player_total then
    (peelLoopFuel rng fuel 1 (player_total - first_card rng player_total)
        [first_card rng player_total]).map
      (fun r => if 2 ≤ r.2 then r.1 ++ [r.2] else r.1)
  else if second_card rng player_total < 2 then some [player_total]
  else some [first_card rng player_total, second_card rng player_total]

/-- Each loop iteration removes at least 2 from the remaining value, so
fuel exceeding the initial remaining value always suffices. -/
theorem peelLoopFuel_complete (rng : Nat → Nat) :
    ∀ fuel remaining i cards, remaining < fuel →
      peelLoopFuel rng fuel i remaining cards =
        some (peelLoop rng i remaining cards) := by
  intro fuel
  induction fuel with
  | zero =>
    intro remaining i cards h
    omega
  | succ fuel ih =>
    intro remaining i cards h
    rw [peelLoopFuel, peelLoop]
    by_cases h10 : 10 < remaining
    · rw [if_pos h10, dif_pos h10]
      have hmin : ¬ min 10 (remaining - 2) < 2 := by omega
      rw [if_neg hmin, dif_neg hmin]
      have hlo : 2 ≤ clampDraw (rng i) 2 (min 10 (remaining - 2)) :=
        clampDraw_lo _ _ _
      exact ih _ _ _ (by omega)
    · rw [if_neg h10, dif_neg h10]

/-- C6: the card-generation loop terminates on every input and every
draw stream: running the fuel-bounded variant with fuel equal to the
requested total already yields the result of the total function, for every
category string, so the peel-off loop finishes within `player_total`
iterations and `generate_hand_cards` is a total function. -/
theorem generate_hand_cards_terminates :
    ∀ (rng : Nat → Nat) (hand_type : String) (player_total : Nat),
      generate_hand_cards_fuel rng hand_type player_total player_total =
        some (generate_hand_cards rng hand_type player_total) := by
  intro rng ht n
  by_cases hp : ht = "pair"
  · simp [generate_hand_cards_fuel, generate_hand_cards, hp]
  · by_cases hsoft : ht = "soft"
    · simp [generate_hand_cards_fuel, generate_hand_cards, hp, hsoft]
    · by_cases h11 : n ≤ 11
      · simp [generate_hand_cards_fuel, generate_hand_cards, hp, hsoft, h11]
      · by_cases hpeel : 10 < second_card rng n
        · have hfc2 : 2 ≤ first_card rng n := clampDraw_lo _ _ _
          have hlt : n - first_card rng n < n := by omega
          simp [generate_hand_cards_fuel, generate_hand_cards, hp, hsoft, h11,
            hpeel, peelLoopFuel_complete rng n (n - first_card rng n) 1
              [first_card rng n] hlt]
        · simp only [generate_hand_cards_fuel, generate_hand_cards, hp, hsoft,
            h11, hpeel, if_false, if_neg, ite_false]
          split_ifs <;> rfl

/-- `Statistics::CategoryData` (stats.h lines 75-78): per-bucket correct
and total counters, both zero-initialized. -/
structure CategoryData where
  correct : Nat
  total : Nat
deriving DecidableEq

/-- The `Statistics` object state (stats.h lines 80-83).  The two
`std::map` members are modelled as functions from key strings to
optional bucket data; `none` means the key is absent from the map.
C++ `double` accuracy values are modelled as exact rationals. -/
structure Statistics where
  total_attempts : Nat
  correct_answers : Nat
  by_category : String → Option CategoryData
  by_dealer_strength : String → Option CategoryData

/-- The `Statistics` constructor (stats.cpp lines 7-17): zero global
counters and exactly the six fixed bucket keys, each zeroed. -/
def Statistics.init : Statistics where
  total_attempts := 0
  correct_answers := 0
  by_category := fun k =>
    if k = "hard" ∨ k = "soft" ∨ k = "pair" then some ⟨0, 0⟩ else none
  by_dealer_strength := fun k =>
    if k = "weak" ∨ k = "medium" ∨ k = "strong" then some ⟨0, 0⟩ else none

/-- The bucket update of `Statistics::record_attempt` (stats.cpp lines
27-41): increment the counters of `key` only when the map already holds
that key (the `find != end` guard); no insertion ever happens. -/
def bump (m : String → Option CategoryData) (key : String) (correct : Bool)
    (k : String) : Option CategoryData :=
  if k = key then
    match m key with
    | some cd => some ⟨cd.correct + (if correct then 1 else 0), cd.total + 1⟩
    | none => none
  else m k

/-- `Statistics::record_attempt` (stats.cpp lines 19-42). -/
def Statistics.record_attempt (s : Statistics)
    (hand_type dealer_strength : String) (correct : Bool) : Statistics where
  total_attempts := s.total_attempts + 1
  correct_answers := s.correct_answers + (if correct then 1 else 0)
  by_category := bump s.by_category hand_type correct
  by_dealer_strength := bump s.by_dealer_strength dealer_strength correct

/-- `Statistics::get_category_accuracy` (stats.cpp lines 44-50): 0 when
the key is absent or its total is 0, else correct/total*100. -/
def Statistics.get_category_accuracy (s : Statistics) (category : String) :
    ℚ :=
  match s.by_category category with
  | none => 0
  | some cd =>
    if cd.total = 0 then 0 else ((cd.correct : ℚ) / (cd.total : ℚ)) * 100

/-- `Statistics::get_dealer_strength_accuracy` (stats.cpp lines 52-59). -/
def Statistics.get_dealer_strength_accuracy (s : Statistics)
    (strength : String) : ℚ :=
  match s.by_dealer_strength strength with
  | none => 0
  | some cd =>
    if cd.total = 0 then 0 else ((cd.correct : ℚ) / (cd.total : ℚ)) * 100

/-- `Statistics::get_session_accuracy` (stats.cpp lines 61-66). -/
def Statistics.get_session_accuracy (s : Statistics) : ℚ :=
  if s.total_attempts = 0 then 0
  else ((s.correct_answers : ℚ) / (s.total_attempts : ℚ)) * 100

/-- `Statistics::reset_session` (stats.cpp lines 112-123): zero the
global counters and overwrite every existing bucket value with a fresh
zeroed `CategoryData`, leaving the key sets untouched. -/
def Statistics.reset_session (s : Statistics) : Statistics where
  total_attempts := 0
  correct_answers := 0
  by_category := fun k => (s.by_category k).map (fun _ => ⟨0, 0⟩)
  by_dealer_strength := fun k => (s.by_dealer_strength k).map (fun _ => ⟨0, 0⟩)

/-- The `Statistics` states reachable from construction through any
sequence of `record_attempt` and `reset_session` calls. -/
inductive Reachable : Statistics → Prop
  | init : Reachable Statistics.init
  | record (s : Statistics) (ht ds : String) (c : Bool) :
      Reachable s → Reachable (s.record_attempt ht ds c)
  | reset (s : Statistics) : Reachable s → Reachable s.reset_session

/-- Invariant of every reachable `Statistics` state: correct counters
never exceed total counters (globally and in each bucket), and the two
bucket maps hold exactly the six fixed keys of the constructor. -/
theorem reachable_inv :
    ∀ s, Reachable s →
      s.correct_answers ≤ s.total_attempts ∧
      (∀ k, (s.by_category k).isSome ↔
        (k = "hard" ∨ k = "soft" ∨ k = "pair")) ∧
      (∀ k, (s.by_dealer_strength k).isSome ↔
        (k = "weak" ∨ k = "medium" ∨ k = "strong")) ∧
      (∀ k cd, s.by_category k = some cd → cd.correct ≤ cd.total) ∧
      (∀ k cd, s.by_dealer_strength k = some cd → cd.correct ≤ cd.total) := by
  intro s hs
  induction hs with
  | init =>
    refine ⟨Nat.le_refl 0, ?_, ?_, ?_, ?_⟩
    · intro k
      simp only [Statistics.init]
      split_ifs with h <;> simp [h]
    · intro k
      simp only [Statistics.init]
      split_ifs with h <;> simp [h]
    · intro k cd hcd
      simp only [Statistics.init] at hcd
      split_ifs at hcd with h
      · cases hcd
        exact Nat.le_refl 0
    · intro k cd hcd
      simp only [Statistics.init] at hcd
      split_ifs at hcd with h
      · cases hcd
        exact Nat.le_refl 0
  | record s ht ds c hr ih =>
    obtain ⟨ihg, ihck, ihdk, ihcv, ihdv⟩ := ih
    refine ⟨?_, ?_, ?_, ?_, ?_⟩
    · simp only [Statistics.record_attempt]
      cases c <;> simp <;> omega
    · intro k
      simp only [Statistics.record_attempt, bump]
      by_cases h : k = ht
      · rw [if_pos h, h, ← ihck ht]
        cases s.by_category ht <;> simp
      · rw [if_neg h]
        exact ihck k
    · intro k
      simp only [Statistics.record_attempt, bump]
      by_cases h : k = ds
      · rw [if_pos h, h, ← ihdk ds]
        cases s.by_dealer_strength ds <;> simp
      · rw [if_neg h]
        exact ihdk k
    · intro k cd hcd
      simp only [Statistics.record_attempt, bump] at hcd
      by_cases h : k = ht
      · rw [if_pos h] at hcd
        cases hmk : s.by_category ht with
        | none => rw [hmk] at hcd; cases hcd
        | some cd0 =>
          rw [hmk] at hcd
          have hv := ihcv ht cd0 hmk
          cases hcd
          cases c <;> simp <;> omega
      · rw [if_neg h] at hcd
        exact ihcv k cd hcd
    · intro k cd hcd
      simp only [Statistics.record_attempt, bump] at hcd
      by_cases h : k = ds
      · rw [if_pos h] at hcd
        cases hmk : s.by_dealer_strength ds with
        | none => rw [hmk] at hcd; cases hcd
        | some cd0 =>
          rw [hmk] at hcd
          have hv := ihdv ds cd0 hmk
          cases hcd
          cases c <;> simp <;> omega
      · rw [if_neg h] at hcd
        exact ihdv k cd hcd
  | reset s hr ih =>
    obtain ⟨ihg, ihck, ihdk, ihcv, ihdv⟩ := ih
    refine ⟨Nat.le_refl 0, ?_, ?_, ?_, ?_⟩
    · intro k
      simp only [Statistics.reset_session]
      rw [← ihck k]
      cases s.by_category k <;> simp
    · intro k
      simp only [Statistics.reset_session]
      rw [← ihdk k]
      cases s.by_dealer_strength k <;> simp
    · intro k cd hcd
      simp only [Statistics.reset_session] at hcd
      cases hmk : s.by_category k with
      | none => rw [hmk] at hcd; cases hcd
      | some cd0 =>
        rw [hmk] at hcd
        cases hcd
        exact Nat.le_refl 0
    · intro k cd hcd
      simp only [Statistics.reset_session] at hcd
      cases hmk : s.by_dealer_strength k with
      | none => rw [hmk] at hcd; cases hcd
      | some cd0 =>
        rw [hmk] at hcd
        cases hcd
        exact Nat.le_refl 0

/-- Bounds of the percentage computation `(correct / total) * 100` over
exact rationals, given the counter invariant `correct ≤ total` (for
`total = 0` the quotient is 0 by convention, matching the guarded code
path never taken). -/
theorem ratio_bounds (c t : Nat) (h : c ≤ t) :
    0 ≤ ((c : ℚ) / (t : ℚ)) * 100 ∧ ((c : ℚ) / (t : ℚ)) * 100 ≤ 100 := by
  rcases Nat.eq_zero_or_pos t with ht | ht
  · subst ht
    have hc : c = 0 := by omega
    subst hc
    norm_num
  · have ht0 : (0 : ℚ) < (t : ℚ) := by exact_mod_cast ht
    constructor
    · exact mul_nonneg (div_nonneg (by positivity) (le_of_lt ht0)) (by norm_num)
    · have h1 : (c : ℚ) / (t : ℚ) ≤ 1 := (div_le_one ht0).mpr (by exact_mod_cast h)
      calc ((c : ℚ) / (t : ℚ)) * 100 ≤ 1 * 100 :=
            mul_le_mul_of_nonneg_right h1 (by norm_num)
        _ = 100 := by norm_num

/-- C7: in every reachable `Statistics` state every accuracy query
returns a value in [0,100], and returns exactly 0 whenever the relevant
total counter is 0 (or the bucket key is absent), so the guarded
division never divides by zero. -/
theorem accuracy_in_range :
    ∀ s, Reachable s → ∀ key,
      (0 ≤ s.get_category_accuracy key ∧ s.get_category_accuracy key ≤ 100 ∧
        (∀ cd, s.by_category key = some cd → cd.total = 0 →
          s.get_category_accuracy key = 0) ∧
        (s.by_category key = none → s.get_category_accuracy key = 0)) ∧
      (0 ≤ s.get_dealer_strength_accuracy key ∧
        s.get_dealer_strength_accuracy key ≤ 100 ∧
        (∀ cd, s.by_dealer_strength key = some cd → cd.total = 0 →
          s.get_dealer_strength_accuracy key = 0) ∧
        (s.by_dealer_strength key = none →
          s.get_dealer_strength_accuracy key = 0)) ∧
      (0 ≤ s.get_session_accuracy ∧ s.get_session_accuracy ≤ 100 ∧
        (s.total_attempts = 0 → s.get_session_accuracy = 0)) := by
  intro s hs key
  obtain ⟨ihg, ihck, ihdk, ihcv, ihdv⟩ := reachable_inv s hs
  refine ⟨?_, ?_, ?_⟩
  · cases hmk : s.by_category key with
    | none =>
      refine ⟨?_, ?_, ?_, ?_⟩ <;>
        norm_num [Statistics.get_category_accuracy, hmk]
    | some cd =>
      by_cases h0 : cd.total = 0
      · refine ⟨?_, ?_, ?_, ?_⟩ <;>
          norm_num [Statistics.get_category_accuracy, hmk, h0]
      · have hb := ratio_bounds cd.correct cd.total (ihcv key cd hmk)
        simp only [Statistics.get_category_accuracy, hmk, if_neg h0]
        refine ⟨hb.1, hb.2, ?_, ?_⟩
        · intro cd2 hcd2 ht0
          cases hcd2
          exact absurd ht0 h0
        · intro hnone
          cases hnone
  · cases hmk : s.by_dealer_strength key with
    | none =>
      refine ⟨?_, ?_, ?_, ?_⟩ <;>
        norm_num [Statistics.get_dealer_strength_accuracy, hmk]
    | some cd =>
      by_cases h0 : cd.total = 0
      · refine ⟨?_, ?_, ?_, ?_⟩ <;>
          norm_num [Statistics.get_dealer_strength_accuracy, hmk, h0]
      · have hb := ratio_bounds cd.correct cd.total (ihdv key cd hmk)
        simp only [Statistics.get_dealer_strength_accuracy, hmk, if_neg h0]
        refine ⟨hb.1, hb.2, ?_, ?_⟩
        · intro cd2 hcd2 ht0
          cases hcd2
          exact absurd ht0 h0
        · intro hnone
          cases hnone
  · by_cases h0 : s.total_attempts = 0
    · refine ⟨?_, ?_, ?_⟩ <;> norm_num [Statistics.get_session_accuracy, h0]
    · have hb := ratio_bounds s.correct_answers s.total_attempts ihg
      simp only [Statistics.get_session_accuracy, if_neg h0]
      exact ⟨hb.1, hb.2, fun h => absurd h h0⟩

/-- Witness for C7 at the freshly constructed state and bucket "hard". -/
theorem accuracy_in_range_witness :
    Reachable Statistics.init ∧
      0 ≤ Statistics.init.get_category_accuracy "hard" :=
  ⟨Reachable.init,
    (accuracy_in_range Statistics.init Reachable.init "hard").1.1⟩

/-- C8: `reset_session` zeroes the global counters and every bucket
while preserving the bucket key sets, every accuracy query afterwards
returns 0, and resetting twice equals resetting once. -/
theorem reset_session_zeroes :
    ∀ s : Statistics,
      s.reset_session.total_attempts = 0 ∧
      s.reset_session.correct_answers = 0 ∧
      (∀ k, (s.reset_session.by_category k).isSome =
        (s.by_category k).isSome) ∧
      (∀ k, (s.reset_session.by_dealer_strength k).isSome =
        (s.by_dealer_strength k).isSome) ∧
      (∀ k cd, s.reset_session.by_category k = some cd → cd = ⟨0, 0⟩) ∧
      (∀ k cd, s.reset_session.by_dealer_strength k = some cd → cd = ⟨0, 0⟩) ∧
      (∀ k, s.reset_session.get_category_accuracy k = 0) ∧
      (∀ k, s.reset_session.get_dealer_strength_accuracy k = 0) ∧
      s.reset_session.get_session_accuracy = 0 ∧
      s.reset_session.reset_session = s.reset_session := by
  intro s
  refine ⟨rfl, rfl, ?_, ?_, ?_, ?_, ?_, ?_, rfl, ?_⟩
  · intro k
    simp only [Statistics.reset_session]
    cases s.by_category k <;> rfl
  · intro k
    simp only [Statistics.reset_session]
    cases s.by_dealer_strength k <;> rfl
  · intro k cd hcd
    simp only [Statistics.reset_session] at hcd
    cases hmk : s.by_category k with
    | none => rw [hmk] at hcd; cases hcd
    | some cd0 =>
      rw [hmk] at hcd
      cases hcd
      rfl
  · intro k cd hcd
    simp only [Statistics.reset_session] at hcd
    cases hmk : s.by_dealer_strength k with
    | none => rw [hmk] at hcd; cases hcd
    | some cd0 =>
      rw [hmk] at hcd
      cases hcd
      rfl
  · intro k
    cases hmk : s.by_category k <;>
      simp [Statistics.get_category_accuracy, Statistics.reset_session, hmk]
  · intro k
    cases hmk : s.by_dealer_strength k <;>
      simp [Statistics.get_dealer_strength_accuracy, Statistics.reset_session,
        hmk]
  · simp only [Statistics.reset_session, Statistics.mk.injEq]
    refine ⟨trivial, trivial, ?_, ?_⟩
    · funext k
      cases s.by_category k <;> rfl
    · funext k
      cases s.by_dealer_strength k <;> rfl

/-- Witness for C8 at the freshly constructed state: resetting it
leaves the total-attempts counter at zero. -/
theorem reset_session_zeroes_witness :
    Statistics.init.reset_session.total_attempts = 0 :=
  (reset_session_zeroes Statistics.init).1

/-- C9: `record_attempt` always increments the global total counter (and
the global correct counter exactly when the answer was correct); with an
unrecognized category or dealer-strength key the corresponding bucket
map is completely unchanged (no bucket is created), while recognized
keys on the same call are still updated normally. -/
theorem record_attempt_frame :
    ∀ s, Reachable s → ∀ (cat ds : String) (c : Bool),
      (s.record_attempt cat ds c).total_attempts = s.total_attempts + 1 ∧
      (s.record_attempt cat ds c).correct_answers =
        s.correct_answers + (if c then 1 else 0) ∧
      (¬(cat = "hard" ∨ cat = "soft" ∨ cat = "pair") →
        ∀ k, (s.record_attempt cat ds c).by_category k = s.by_category k) ∧
      (¬(ds = "weak" ∨ ds = "medium" ∨ ds = "strong") →
        ∀ k, (s.record_attempt cat ds c).by_dealer_strength k =
          s.by_dealer_strength k) ∧
      ((cat = "hard" ∨ cat = "soft" ∨ cat = "pair") →
        ∃ cd, s.by_category cat = some cd ∧
          (s.record_attempt cat ds c).by_category cat =
            some ⟨cd.correct + (if c then 1 else 0), cd.total + 1⟩) ∧
      ((ds = "weak" ∨ ds = "medium" ∨ ds = "strong") →
        ∃ cd, s.by_dealer_strength ds = some cd ∧
          (s.record_attempt cat ds c).by_dealer_strength ds =
            some ⟨cd.correct + (if c then 1 else 0), cd.total + 1⟩) := by
  intro s hs cat ds c
  obtain ⟨ihg, ihck, ihdk, ihcv, ihdv⟩ := reachable_inv s hs
  refine ⟨rfl, rfl, ?_, ?_, ?_, ?_⟩
  · intro hcat k
    have hnone : s.by_category cat = none := by
      cases hmk : s.by_category cat with
      | none => rfl
      | some cd => exact absurd ((ihck cat).mp (by rw [hmk]; rfl)) hcat
    simp only [Statistics.record_attempt, bump]
    by_cases h : k = cat
    · rw [if_pos h, hnone, h, hnone]
    · rw [if_neg h]
  · intro hds k
    have hnone : s.by_dealer_strength ds = none := by
      cases hmk : s.by_dealer_strength ds with
      | none => rfl
      | some cd => exact absurd ((ihdk ds).mp (by rw [hmk]; rfl)) hds
    simp only [Statistics.record_attempt, bump]
    by_cases h : k = ds
    · rw [if_pos h, hnone, h, hnone]
    · rw [if_neg h]
  · intro hcat
    have hsome : (s.by_category cat).isSome := (ihck cat).mpr hcat
    cases hmk : s.by_category cat with
    | none => rw [hmk] at hsome; cases hsome
    | some cd =>
      refine ⟨cd, rfl, ?_⟩
      simp [Statistics.record_attempt, bump, hmk]
  · intro hds
    have hsome : (s.by_dealer_strength ds).isSome := (ihdk ds).mpr hds
    cases hmk : s.by_dealer_strength ds with
    | none => rw [hmk] at hsome; cases hsome
    | some cd =>
      refine ⟨cd, rfl, ?_⟩
      simp [Statistics.record_attempt, bump, hmk]

/-- Witness for C9 at the freshly constructed state with the
unrecognized category "other". -/
theorem record_attempt_frame_witness :
    Reachable Statistics.init ∧
      (Statistics.init.record_attempt "other" "weak" true).total_attempts =
        Statistics.init.total_attempts + 1 :=
  ⟨Reachable.init,
    (record_attempt_frame Statistics.init Reachable.init "other" "weak"
      true).1⟩
